import Mathlib

/-
Verification of the gofsm-gen FSM model, graph analyzer, validator and
code generator (pkg/model/{state,event,transition,fsm,graph}.go and
pkg/generator/code_generator.go), via a shallow embedding in Lean.

Go maps keyed by entity name are embedded as lists of entities looked up
by name (AddState/AddEvent reject duplicate keys, so the association is
injective); Go's in-place mutation through a pointer receiver is embedded
by returning the post-call model next to the returned error value.
-/

namespace Gofsm

/-- Embeds `State` from pkg/model/state.go. -/
structure State where
  Name : String
  EntryAction : String := ""
  ExitAction : String := ""
  Description : String := ""
deriving Repr, DecidableEq

/-- Embeds `Event` from pkg/model/event.go. -/
structure Event where
  Name : String
  Description : String := ""
deriving Repr, DecidableEq

/-- Embeds `Transition` from pkg/model/transition.go. -/
structure Transition where
  From : String
  To : String
  Event : String
  Guard : String := ""
  Action : String := ""
  Description : String := ""
deriving Repr, DecidableEq

/-- Embeds `FSMModel` from pkg/model/fsm.go. `States` and `Events` embed the
Go maps keyed by `Name`; `Package` is the generated-code package name. -/
structure FSMModel where
  Name : String
  Initial : String
  States : List State
  Events : List Event
  Transitions : List Transition
  Package : String := ""
  Description : String := ""
deriving Repr, DecidableEq

/-- Character class of `validNamePattern`s first position: `[a-zA-Z_]`
(pkg/model/state.go line 24). -/
def isIdentStart (c : Char) : Bool :=
  (('a' ≤ c && c ≤ 'z') || ('A' ≤ c && c ≤ 'Z')) || c = '_'

/-- Character class of the remaining positions: `[a-zA-Z0-9_]`. -/
def isIdentChar (c : Char) : Bool :=
  isIdentStart c || ('0' ≤ c && c ≤ '9')

/-- Embeds `validNamePattern.MatchString`, the anchored regular expression
`[a-zA-Z_][a-zA-Z0-9_]*` of pkg/model/state.go. -/
def validNameMatch (s : String) : Bool :=
  match s.toList with
  | [] => false
  | c :: cs => isIdentStart c && cs.all isIdentChar

/-- The construction-time error values returned by the add-operations of
pkg/model/fsm.go, one constructor per distinct `fmt.Errorf` site. -/
inductive ModelError where
  | nilState
  | emptyStateName
  | duplicateState (name : String)
  | nilEvent
  | emptyEventName
  | duplicateEvent (name : String)
  | nilTransition
  | undefinedFromState (name : String)
  | undefinedToState (name : String)
  | undefinedEvent (name : String)
deriving Repr, DecidableEq

/-- The three dangling-reference errors of `AddTransition`. -/
def ModelError.isDanglingReference : ModelError → Bool
  | .undefinedFromState _ => true
  | .undefinedToState _ => true
  | .undefinedEvent _ => true
  | _ => false

/-- Map lookup `f.States[name]` of the Go code. -/
def findState (m : FSMModel) (name : String) : Option State :=
  m.States.find? fun s => s.Name == name

/-- Map lookup `f.Events[name]` of the Go code. -/
def findEvent (m : FSMModel) (name : String) : Option Event :=
  m.Events.find? fun e => e.Name == name

/-- Embeds `FSMModel.AddState` (pkg/model/fsm.go lines 49-64); the first
component is the model after the call, the second the returned error. -/
def AddState (m : FSMModel) (state : Option State) : FSMModel × Option ModelError :=
  match state with
  | none => (m, some ModelError.nilState)
  | some s =>
    if s.Name = "" then (m, some ModelError.emptyStateName)
    else if (findState m s.Name).isSome then (m, some (ModelError.duplicateState s.Name))
    else ({ m with States := m.States ++ [s] }, none)

/-- Embeds `FSMModel.AddEvent` (pkg/model/fsm.go lines 67-82). -/
def AddEvent (m : FSMModel) (event : Option Event) : FSMModel × Option ModelError :=
  match event with
  | none => (m, some ModelError.nilEvent)
  | some e =>
    if e.Name = "" then (m, some ModelError.emptyEventName)
    else if (findEvent m e.Name).isSome then (m, some (ModelError.duplicateEvent e.Name))
    else ({ m with Events := m.Events ++ [e] }, none)

/-- Embeds `FSMModel.AddTransition` (pkg/model/fsm.go lines 85-107): the
from state, to state and event must already exist, checked in that order;
only then is the transition appended. -/
def AddTransition (m : FSMModel) (transition : Option Transition) :
    FSMModel × Option ModelError :=
  match transition with
  | none => (m, some ModelError.nilTransition)
  | some t =>
    if (findState m t.From).isNone then (m, some (ModelError.undefinedFromState t.From))
    else if (findState m t.To).isNone then (m, some (ModelError.undefinedToState t.To))
    else if (findEvent m t.Event).isNone then (m, some (ModelError.undefinedEvent t.Event))
    else ({ m with Transitions := m.Transitions ++ [t] }, none)

/-- The per-entity validation errors of State.Validate, Event.Validate and
Transition.Validate. -/
inductive EntityError where
  | emptyStateName
  | invalidStateName (name : String)
  | emptyEventName
  | invalidEventName (name : String)
  | emptyFrom
  | emptyTo
  | emptyTransitionEvent
deriving Repr, DecidableEq

/-- Embeds `State.Validate` (pkg/model/state.go lines 62-72). -/
def State.Validate (s : State) : Option EntityError :=
  if s.Name = "" then some EntityError.emptyStateName
  else if !(validNameMatch s.Name) then some (EntityError.invalidStateName s.Name)
  else none

/-- Embeds `Event.Validate` (pkg/model/event.go lines 30-40). -/
def Event.Validate (e : Event) : Option EntityError :=
  if e.Name = "" then some EntityError.emptyEventName
  else if !(validNameMatch e.Name) then some (EntityError.invalidEventName e.Name)
  else none

/-- Embeds `Transition.Validate` (pkg/model/transition.go lines 68-82). -/
def Transition.Validate (t : Transition) : Option EntityError :=
  if t.From = "" then some EntityError.emptyFrom
  else if t.To = "" then some EntityError.emptyTo
  else if t.Event = "" then some EntityError.emptyTransitionEvent
  else none

/-- The whole-model validation errors of `FSMModel.Validate`, one
constructor per distinct return site. -/
inductive ValidationError where
  | initialNotDefined (name : String)
  | noStates
  | noEvents
  | invalidState (e : EntityError)
  | invalidEvent (e : EntityError)
  | invalidTransition (e : EntityError)
deriving Repr, DecidableEq

/-- Embeds `FSMModel.Validate` (pkg/model/fsm.go lines 110-148): the checks
run in order and the first failure is returned at once as the single error
value (the Go function returns `error`, not a list). -/
def FSMModel.Validate (m : FSMModel) : Option ValidationError :=
  if (findState m m.Initial).isNone then some (ValidationError.initialNotDefined m.Initial)
  else if m.States.length = 0 then some ValidationError.noStates
  else if m.Events.length = 0 then some ValidationError.noEvents
  else
    match m.States.findSome? State.Validate with
    | some e => some (ValidationError.invalidState e)
    | none =>
      match m.Events.findSome? Event.Validate with
      | some e => some (ValidationError.invalidEvent e)
      | none =>
        match m.Transitions.findSome? Transition.Validate with
        | some e => some (ValidationError.invalidTransition e)
        | none => none

/-- Embeds `FSMModel.GetTransitionsFrom` (pkg/model/fsm.go lines 161-169). -/
def FSMModel.GetTransitionsFrom (m : FSMModel) (stateName : String) : List Transition :=
  m.Transitions.filter fun t => t.From == stateName

/-- Embeds `FSMModel.GetTransitionsTo` (pkg/model/fsm.go lines 172-180). -/
def FSMModel.GetTransitionsTo (m : FSMModel) (stateName : String) : List Transition :=
  m.Transitions.filter fun t => t.To == stateName

/-- Embeds `FSMModel.GetStateNames` (pkg/model/fsm.go lines 183-189): the
keys of the state map, i.e. the names under which AddState inserted. -/
def FSMModel.GetStateNames (m : FSMModel) : List String :=
  m.States.map State.Name

/-- Embeds `FSMModel.GetEventNames` (pkg/model/fsm.go lines 192-198). -/
def FSMModel.GetEventNames (m : FSMModel) : List String :=
  m.Events.map Event.Name

/-- The error values of `CodeGenerator.Generate`
(pkg/generator/code_generator.go lines 63-78). -/
inductive GenerationError where
  | nilModel
  | templateError (msg : String)
deriving Repr, DecidableEq

/-- Embeds `CodeGenerator.Generate` (pkg/generator/code_generator.go lines
63-78). The call `g.templates.ExecuteTemplate` renders an external template
file; it is abstracted as the parameter `render`, which reads the model and
either fails or produces the output text. The first component of the result
is the model value after the call (Go mutates it through the pointer: an
empty `Package` field is set to "main" before rendering). -/
def Generate (render : FSMModel → Except String String) (m : Option FSMModel) :
    Option FSMModel × Except GenerationError String :=
  match m with
  | none => (none, Except.error GenerationError.nilModel)
  | some model =>
    let rendered := if model.Package = "" then { model with Package := "main" } else model
    match render rendered with
    | Except.error e => (some rendered, Except.error (GenerationError.templateError e))
    | Except.ok bs => (some rendered, Except.ok bs)

/-- The successor names along the forward adjacency view built by
`StateGraph.Build` (pkg/model/graph.go lines 29-46): the `To` fields of the
transitions leaving `s`, in insertion order (an absent key in the Go map
reads as the empty list). -/
def successors (ts : List Transition) (s : String) : List String :=
  (ts.filter fun t => t.From == s).map Transition.To

mutual

/-- Embeds `StateGraph.dfs` (pkg/model/graph.go lines 56-66), the
reachability traversal; `fuel` bounds the recursion depth (the Go recursion
terminates because `visited` only grows, and the callers below always pass
a sufficient budget). -/
def dfs (adj : String → List String) : Nat → String → List String → List String
  | 0, _, visited => visited
  | fuel + 1, state, visited =>
    if state ∈ visited then visited
    else dfsList adj fuel (adj state) (state :: visited)
termination_by fuel _ _ => (fuel, 0)

/-- The loop over `g.adjacencyList[state]` inside `StateGraph.dfs`. -/
def dfsList (adj : String → List String) : Nat → List String → List String → List String
  | _, [], visited => visited
  | fuel, c :: cs, visited => dfsList adj fuel cs (dfs adj fuel c visited)
termination_by fuel cs _ => (fuel, cs.length)

end

mutual

/-- Embeds `StateGraph.hasCycleUtil` (pkg/model/graph.go lines 119-135),
the three-color cycle-detecting DFS. The pair is (cycle found, visited set
after the call); `recStack` is the set of on-stack ancestors, which the Go
code maintains by setting the flag on entry and clearing it on a false
return. -/
def hasCycleUtil (adj : String → List String) :
    Nat → String → List String → List String → Bool × List String
  | 0, _, visited, _ => (false, visited)
  | fuel + 1, state, visited, recStack =>
    cycleChildren adj fuel (adj state) (state :: visited) (state :: recStack)
termination_by fuel _ _ _ => (fuel, 0)

/-- The loop over `g.adjacencyList[state]` inside `hasCycleUtil`: an
unvisited target is recursed into; a visited target still on the recursion
stack is a back edge, i.e. a cycle. -/
def cycleChildren (adj : String → List String) :
    Nat → List String → List String → List String → Bool × List String
  | _, [], visited, _ => (false, visited)
  | fuel, c :: cs, visited, recStack =>
    if c ∈ visited then
      if c ∈ recStack then (true, visited)
      else cycleChildren adj fuel cs visited recStack
    else
      match hasCycleUtil adj fuel c visited recStack with
      | (true, v) => (true, v)
      | (false, v) => cycleChildren adj fuel cs v recStack
termination_by fuel cs _ _ => (fuel, cs.length)

end

/-- The loop of `StateGraph.HasCycles` (pkg/model/graph.go lines 103-116)
over every declared state, threading the shared visited set; the recursion
stack is empty at each top-level call because the Go code clears every flag
it set before returning false. -/
def hasCyclesLoop (adj : String → List String) (fuel : Nat) :
    List String → List String → Bool
  | [], _ => false
  | s :: ss, visited =>
    if s ∈ visited then hasCyclesLoop adj fuel ss visited
    else
      match hasCycleUtil adj fuel s visited [] with
      | (true, _) => true
      | (false, v) => hasCyclesLoop adj fuel ss v

/-- A recursion-depth budget that always covers the Go traversals, whose
depth is bounded by the number of distinct visitable names. -/
def graphFuel (m : FSMModel) : Nat :=
  m.States.length + m.Transitions.length + 2

/-- The observable state of a `StateGraph` after `NewStateGraph` followed
by `Build` (pkg/model/graph.go lines 19-46): the model plus the reachable
set that `computeReachability` stored (the adjacency views are recomputed
on demand by `successors`). -/
structure StateGraph where
  FSM : FSMModel
  reachable : List String
deriving Repr, DecidableEq

/-- NewStateGraph followed by Build: `computeReachability` runs the DFS
from the model's initial state with a fresh empty visited set
(pkg/model/graph.go lines 49-53). -/
def buildGraph (m : FSMModel) : StateGraph :=
  { FSM := m, reachable := dfs (successors m.Transitions) (graphFuel m) m.Initial [] }

/-- Embeds `StateGraph.IsReachable` (pkg/model/graph.go lines 85-87): a map
lookup defaulting to false. -/
def StateGraph.IsReachable (g : StateGraph) (state : String) : Bool :=
  g.reachable.contains state

/-- Embeds `StateGraph.GetUnreachableStates` (pkg/model/graph.go lines
90-100): every declared state name absent from the reachable set. -/
def StateGraph.GetUnreachableStates (g : StateGraph) : List String :=
  g.FSM.GetStateNames.filter fun n => !(g.reachable.contains n)

/-- Embeds `StateGraph.HasCycles` (pkg/model/graph.go lines 103-116). -/
def StateGraph.HasCycles (g : StateGraph) : Bool :=
  hasCyclesLoop (successors g.FSM.Transitions) (graphFuel g.FSM) g.FSM.GetStateNames []

/- Concrete fixtures used by counterexamples and witnesses. -/

/-- A model with a single valid state, used as a base fixture. -/
def baseModel : FSMModel :=
  { Name := "W", Initial := "a", States := [{ Name := "a" }], Events := [{ Name := "e" }],
    Transitions := [] }

/-- A transition whose source state is not declared in `baseModel`. -/
def danglingT : Transition := { From := "x", To := "a", Event := "e" }

/-- A model with two independent validation problems: its initial state
"missing" is not declared, and its event set is empty. -/
def twoProblemModel : FSMModel :=
  { Name := "M", Initial := "missing", States := [{ Name := "a" }], Events := [],
    Transitions := [] }

/-- Scenario F of the spec: two unguarded transitions out of "pending" on
the same event "approve". -/
def scenF : FSMModel :=
  { Name := "M", Initial := "pending",
    States := [{ Name := "pending" }, { Name := "approved" }, { Name := "rejected" }],
    Events := [{ Name := "approve" }],
    Transitions := [{ From := "pending", To := "approved", Event := "approve" },
                    { From := "pending", To := "rejected", Event := "approve" }] }

/-- A state whose name is non-empty but not identifier-valid. -/
def malformedState : State := { Name := "foo bar" }

/-- A model with no states at all. -/
def emptyModel : FSMModel :=
  { Name := "M", Initial := "a", States := [], Events := [], Transitions := [] }

/-- A rendering function that always succeeds with empty output, standing
in for a concrete parsed template. -/
def renderOk : FSMModel → Except String String := fun _ => Except.ok ""

/-- Claim C1, counterexample: `twoProblemModel` has two independent
problems (undefined initial state and an empty event set), yet Validate
returns the single initial-state error: the returned collection has one
element and does not contain the empty-event-set problem, so Validate does
stop at the first problem. -/
theorem Validate_fail_fast_cex :
    findState twoProblemModel twoProblemModel.Initial = none ∧
    twoProblemModel.Events = [] ∧
    FSMModel.Validate twoProblemModel = some (ValidationError.initialNotDefined "missing") ∧
    ValidationError.noEvents ∉ (FSMModel.Validate twoProblemModel).toList ∧
    (FSMModel.Validate twoProblemModel).toList.length = 1 := by
  decide

/-- Claim C1, amended: Validate is fail-fast, not aggregating: it returns
at most one error, the first failed check in source order; in particular
whenever the initial state is undefined it reports exactly that error and
nothing else, whatever other problems the model has. -/
theorem Validate_returns_first_problem (m : FSMModel)
    (h : findState m m.Initial = none) :
    FSMModel.Validate m = some (ValidationError.initialNotDefined m.Initial) := by
  simp [FSMModel.Validate, h]

/-- Witness for `Validate_returns_first_problem` at `twoProblemModel`. -/
theorem Validate_returns_first_problem_witness :
    findState twoProblemModel twoProblemModel.Initial = none ∧
    FSMModel.Validate twoProblemModel
      = some (ValidationError.initialNotDefined twoProblemModel.Initial) :=
  ⟨by decide, Validate_returns_first_problem twoProblemModel (by decide)⟩

/-- Claim C2, counterexample: the Scenario-F model has two unguarded
transitions sharing the (pending, approve) pair, yet Validate reports no
violation at all (it returns success, not exactly one nondeterminism
violation): FSMModel.Validate performs no determinism check. -/
theorem Validate_no_determinism_cex :
    (scenF.Transitions.filter fun t =>
      t.From == "pending" && t.Event == "approve" && t.Guard == "").length = 2 ∧
    FSMModel.Validate scenF = none := by
  decide

/-- Claim C2, amended: Validate runs no determinism analysis: a model that
passes the initial-state, non-emptiness and per-entity checks validates
successfully even when it contains two distinct unguarded transitions with
the same (from, event) pair. -/
theorem Validate_ignores_unguarded_conflicts (m : FSMModel)
    (h1 : (findState m m.Initial).isSome)
    (h2 : m.States.length ≠ 0) (h3 : m.Events.length ≠ 0)
    (h4 : ∀ s ∈ m.States, State.Validate s = none)
    (h5 : ∀ e ∈ m.Events, Event.Validate e = none)
    (h6 : ∀ t ∈ m.Transitions, Transition.Validate t = none)
    (h7 : ∃ t1 ∈ m.Transitions, ∃ t2 ∈ m.Transitions,
      t1 ≠ t2 ∧ t1.From = t2.From ∧ t1.Event = t2.Event ∧ t1.Guard = "" ∧ t2.Guard = "") :
    FSMModel.Validate m = none := by
  have hs : m.States.findSome? State.Validate = none :=
    List.findSome?_eq_none_iff.mpr h4
  have he : m.Events.findSome? Event.Validate = none :=
    List.findSome?_eq_none_iff.mpr h5
  have ht : m.Transitions.findSome? Transition.Validate = none :=
    List.findSome?_eq_none_iff.mpr h6
  have h1' : ¬ (findState m m.Initial).isNone = true := by
    simp only [Option.isNone_iff_eq_none]
    intro hnone
    rw [hnone] at h1
    exact absurd h1 (by simp)
  simp [FSMModel.Validate, h1', h2, h3, hs, he, ht]

/-- Witness for `Validate_ignores_unguarded_conflicts` at the Scenario-F
model. -/
theorem Validate_ignores_unguarded_conflicts_witness :
    ((findState scenF scenF.Initial).isSome ∧
     scenF.States.length ≠ 0 ∧ scenF.Events.length ≠ 0 ∧
     (∃ t1 ∈ scenF.Transitions, ∃ t2 ∈ scenF.Transitions,
       t1 ≠ t2 ∧ t1.From = t2.From ∧ t1.Event = t2.Event ∧ t1.Guard = "" ∧ t2.Guard = "")) ∧
    FSMModel.Validate scenF = none :=
  ⟨⟨by decide, by decide, by decide, by decide⟩,
   Validate_ignores_unguarded_conflicts scenF (by decide) (by decide) (by decide)
     (by decide) (by decide) (by decide) (by decide)⟩

/-- Claim C3, counterexample: Generate is not side-effect-free on the
model: on a model whose Package field is empty it sets Package to "main",
so the model after the call differs from the model before it. -/
theorem Generate_mutates_package_cex :
    baseModel.Package = "" ∧
    (Generate renderOk (some baseModel)).1 ≠ some baseModel ∧
    ((Generate renderOk (some baseModel)).1.map FSMModel.Package) = some "main" := by
  decide

/-- Claim C3, amended: Generate leaves Name, Initial, States, Events,
Transitions and Description unchanged, but it does write the Package field:
an empty Package is set to "main" before rendering, and a non-empty Package
is kept, so the model after the call is exactly the input model with
Package defaulted. -/
theorem Generate_package_default (render : FSMModel → Except String String) (m : FSMModel) :
    (Generate render (some m)).1
      = some { m with Package := if m.Package = "" then "main" else m.Package } := by
  by_cases h : m.Package = "" <;>
    simp only [Generate, h, if_true, if_false, ite_true, ite_false] <;>
    rcases render { m with Package := "main" } with e | bs <;>
    rcases render m with e' | bs' <;>
    rfl

/-- Claim C4, counterexample: AddState accepts the state named "foo bar",
whose name is non-empty but fails the identifier grammar, inserting it into
the registry instead of failing: the grammar is not checked by AddState. -/
theorem AddState_accepts_malformed_cex :
    malformedState.Name ≠ "" ∧ validNameMatch malformedState.Name = false ∧
    AddState emptyModel (some malformedState)
      = ({ emptyModel with States := [malformedState] }, none) := by
  decide

/-- Claim C4, amended: AddState rejects only a nil state, an empty name, or
a duplicate name; a state whose non-empty name fails the identifier grammar
is accepted and inserted (the grammar is enforced by NewState and by the
Validate functions, not at add time). -/
theorem AddState_no_grammar_check (m : FSMModel) (s : State)
    (h1 : s.Name ≠ "") (h2 : findState m s.Name = none)
    (h3 : validNameMatch s.Name = false) :
    AddState m (some s) = ({ m with States := m.States ++ [s] }, none) := by
  simp [AddState, h1, h2]

/-- Witness for `AddState_no_grammar_check` at the state "foo bar". -/
theorem AddState_no_grammar_check_witness :
    (malformedState.Name ≠ "" ∧ findState emptyModel malformedState.Name = none ∧
     validNameMatch malformedState.Name = false) ∧
    AddState emptyModel (some malformedState)
      = ({ emptyModel with States := emptyModel.States ++ [malformedState] }, none) :=
  ⟨⟨by decide, by decide, by decide⟩,
   AddState_no_grammar_check emptyModel malformedState (by decide) (by decide) (by decide)⟩

/-- Claim C5: a transition whose from state, to state or event is not in
the registries makes AddTransition fail with a dangling-reference error,
and the model - in particular its transition list - is unchanged. -/
theorem AddTransition_dangling_no_mutation (m : FSMModel) (t : Transition)
    (h : findState m t.From = none ∨ findState m t.To = none ∨ findEvent m t.Event = none) :
    (AddTransition m (some t)).1 = m ∧
    ∃ e, (AddTransition m (some t)).2 = some e ∧ e.isDanglingReference = true := by
  by_cases h1 : findState m t.From = none
  · exact ⟨by simp [AddTransition, h1], ModelError.undefinedFromState t.From,
      by simp [AddTransition, h1], rfl⟩
  · by_cases h2 : findState m t.To = none
    · exact ⟨by simp [AddTransition, h1, h2], ModelError.undefinedToState t.To,
        by simp [AddTransition, h1, h2], rfl⟩
    · have h3 : findEvent m t.Event = none := by tauto
      exact ⟨by simp [AddTransition, h1, h2, h3], ModelError.undefinedEvent t.Event,
        by simp [AddTransition, h1, h2, h3], rfl⟩

/-- Witness for `AddTransition_dangling_no_mutation` at a transition whose
source state "x" is not declared. -/
theorem AddTransition_dangling_no_mutation_witness :
    (findState baseModel danglingT.From = none ∨ findState baseModel danglingT.To = none ∨
     findEvent baseModel danglingT.Event = none) ∧
    ((AddTransition baseModel (some danglingT)).1 = baseModel ∧
     ∃ e, (AddTransition baseModel (some danglingT)).2 = some e ∧
       e.isDanglingReference = true) :=
  ⟨Or.inl (by decide),
   AddTransition_dangling_no_mutation baseModel danglingT (Or.inl (by decide))⟩

/-- Claim C8: Generate called on an absent model fails immediately with the
nil-model error and produces no output bytes. -/
theorem Generate_nil_model (render : FSMModel → Except String String) :
    Generate render none = (none, Except.error GenerationError.nilModel) := rfl

/- Lemmas about the reachability DFS. -/

/-- The visited set only grows along the inner loop of the DFS, granted
that it only grows along each recursive call. -/
theorem dfsList_subset_of (adj : String → List String) (fuel : Nat)
    (ih : ∀ s visited, visited ⊆ dfs adj fuel s visited) :
    ∀ cs visited, visited ⊆ dfsList adj fuel cs visited := by
  intro cs
  induction cs with
  | nil => intro visited; rw [dfsList]; exact List.Subset.refl _
  | cons c cs ihc =>
    intro visited
    rw [dfsList]
    exact (ih c visited).trans (ihc _)

/-- The visited set only grows along a DFS call. -/
theorem dfs_subset (adj : String → List String) :
    ∀ fuel s visited, visited ⊆ dfs adj fuel s visited := by
  intro fuel
  induction fuel with
  | zero => intro s visited; rw [dfs]; exact List.Subset.refl _
  | succ fuel ih =>
    intro s visited
    rw [dfs]
    split
    · exact List.Subset.refl _
    · exact (List.subset_cons_self _ _).trans (dfsList_subset_of adj fuel ih _ _)

/-- The seed of `computeReachability` is the initial name, marked before
any edge is followed, so it is always in the reachable set. -/
theorem initial_mem_reachable (m : FSMModel) : m.Initial ∈ (buildGraph m).reachable := by
  show m.Initial ∈ dfs (successors m.Transitions) (graphFuel m) m.Initial []
  have hf : graphFuel m = (m.States.length + m.Transitions.length + 1) + 1 := rfl
  rw [hf, dfs]
  split
  · simp_all
  · exact dfsList_subset_of _ _ (dfs_subset _ _) _ _ (List.mem_cons_self _ _)

/-- Claim C10: after Build, IsReachable is true of the model's initial
name, whether or not a state of that name was ever added: the traversal
seeds the visited set with the initial name unconditionally, so the
initial name is never among the unreachable states either. -/
theorem IsReachable_initial_unconditionally (m : FSMModel) :
    (buildGraph m).IsReachable m.Initial = true ∧
    m.Initial ∉ (buildGraph m).GetUnreachableStates := by
  have hmem := initial_mem_reachable m
  constructor
  · simpa [StateGraph.IsReachable] using hmem
  · intro hun
    have := (List.mem_filter.mp hun).2
    simp only [Bool.not_eq_true', Bool.not_eq_true] at this
    rw [show ((buildGraph m).reachable.contains m.Initial = false)
          ↔ ¬ ((buildGraph m).reachable.contains m.Initial = true) by simp] at this
    exact this (by simpa using hmem)

/-- With no edges anywhere, the cycle-detection DFS on a single state finds
nothing: it marks the state and returns false. -/
theorem hasCycleUtil_no_edges (adj : String → List String) (h : ∀ s, adj s = [])
    (fuel : Nat) (s : String) (visited recStack : List String) :
    ∃ v', hasCycleUtil adj fuel s visited recStack = (false, v') := by
  cases fuel with
  | zero => exact ⟨visited, by rw [hasCycleUtil]⟩
  | succ fuel =>
    refine ⟨s :: visited, ?_⟩
    rw [hasCycleUtil, h s, cycleChildren]

/-- With no edges anywhere, the HasCycles loop returns false. -/
theorem hasCyclesLoop_no_edges (adj : String → List String) (h : ∀ s, adj s = [])
    (fuel : Nat) : ∀ names visited, hasCyclesLoop adj fuel names visited = false := by
  intro names
  induction names with
  | nil => intro v; rw [hasCyclesLoop]
  | cons s ss ih =>
    intro v
    rw [hasCyclesLoop]
    split
    · exact ih v
    · obtain ⟨v', hv'⟩ := hasCycleUtil_no_edges adj h fuel s v []
      rw [hv']
      exact ih v'

/-- Claim C9: with an empty transition list, after Build the reachable set
is exactly the initial state, GetUnreachableStates returns every declared
state name other than the initial one, and HasCycles is false. -/
theorem empty_transitions_graph (m : FSMModel) (h : m.Transitions = []) :
    (buildGraph m).reachable = [m.Initial] ∧
    (buildGraph m).GetUnreachableStates
      = m.GetStateNames.filter (fun n => !(n == m.Initial)) ∧
    (buildGraph m).HasCycles = false := by
  have hadj : ∀ s, successors m.Transitions s = [] := by
    intro s; rw [h]; rfl
  have hreach : (buildGraph m).reachable = [m.Initial] := by
    show dfs (successors m.Transitions) (graphFuel m) m.Initial [] = [m.Initial]
    have hf : graphFuel m = (m.States.length + m.Transitions.length + 1) + 1 := rfl
    rw [hf, dfs]
    split
    · simp_all
    · rw [hadj, dfsList]
  refine ⟨hreach, ?_, ?_⟩
  · show m.GetStateNames.filter _ = m.GetStateNames.filter _
    apply List.filter_congr
    intro n _
    rw [hreach]
    cases hn : n == m.Initial with
    | false =>
      simp only [List.contains_cons, hn, Bool.false_or]
      rw [show ([] : List String).contains n = false from rfl]
    | true =>
      simp only [List.contains_cons, hn, Bool.true_or]
  · show hasCyclesLoop (successors m.Transitions) (graphFuel m) m.GetStateNames [] = false
    exact hasCyclesLoop_no_edges _ hadj _ _ _

/-- Witness for `empty_transitions_graph` at a two-state model with no
transitions. -/
theorem empty_transitions_graph_witness :
    baseModel.Transitions = [] ∧
    ((buildGraph baseModel).reachable = [baseModel.Initial] ∧
     (buildGraph baseModel).GetUnreachableStates
       = baseModel.GetStateNames.filter (fun n => !(n == baseModel.Initial)) ∧
     (buildGraph baseModel).HasCycles = false) :=
  ⟨rfl, empty_transitions_graph baseModel rfl⟩

/- Lemmas about the cycle-detection DFS. -/

/-- The visited set only grows along the children loop of the cycle DFS,
granted it only grows along each recursive call at the same depth. -/
theorem cycleChildren_subset_of (adj : String → List String) (fuel : Nat)
    (ih : ∀ s v r, v ⊆ (hasCycleUtil adj fuel s v r).2) :
    ∀ cs v r, v ⊆ (cycleChildren adj fuel cs v r).2 := by
  intro cs
  induction cs with
  | nil => intro v r; rw [cycleChildren]; exact List.Subset.refl _
  | cons c cs ihc =>
    intro v r
    rw [cycleChildren]
    by_cases hc : c ∈ v
    · rw [if_pos hc]
      by_cases hcr : c ∈ r
      · rw [if_pos hcr]; exact List.Subset.refl _
      · rw [if_neg hcr]; exact ihc v r
    · rw [if_neg hc]
      rcases hcu : hasCycleUtil adj fuel c v r with ⟨b, v'⟩
      have hsub : v ⊆ v' := by
        have h2 := ih c v r
        rw [hcu] at h2
        exact h2
      cases b
      · exact hsub.trans (ihc v' r)
      · exact hsub

/-- The visited set only grows along the cycle DFS. -/
theorem hasCycleUtil_subset (adj : String → List String) :
    ∀ fuel s v r, v ⊆ (hasCycleUtil adj fuel s v r).2 := by
  intro fuel
  induction fuel with
  | zero => intro s v r; rw [hasCycleUtil]; exact List.Subset.refl _
  | succ fuel ih =>
    intro s v r
    rw [hasCycleUtil]
    exact (List.subset_cons_self _ _).trans (cycleChildren_subset_of adj fuel ih _ _ _)

/-- A state with a self edge that is already visited and on the recursion
stack makes the children loop that still lists it report a cycle: its back
edge is found. -/
theorem cycleChildren_self_hit (adj : String → List String) (fuel : Nat) (s₀ : String) :
    ∀ cs v r, s₀ ∈ cs → s₀ ∈ v → s₀ ∈ r →
      (cycleChildren adj fuel cs v r).1 = true := by
  intro cs
  induction cs with
  | nil => intro v r h _ _; exact absurd h (List.not_mem_nil _)
  | cons c cs ihc =>
    intro v r hcs hv hr
    rw [cycleChildren]
    by_cases hc : c ∈ v
    · rw [if_pos hc]
      by_cases hcr : c ∈ r
      · rw [if_pos hcr]
      · rw [if_neg hcr]
        have hs : s₀ ∈ cs := by
          rcases List.mem_cons.mp hcs with h | h
          · exact absurd (by rw [← h]; exact hr) hcr
          · exact h
        exact ihc v r hs hv hr
    · rw [if_neg hc]
      have hs : s₀ ∈ cs := by
        rcases List.mem_cons.mp hcs with h | h
        · exact absurd (by rw [← h]; exact hv) hc
        · exact h
      rcases hcu : hasCycleUtil adj fuel c v r with ⟨b, v'⟩
      cases b
      · have hv' : s₀ ∈ v' := by
          have h2 := hasCycleUtil_subset adj fuel c v r
          rw [hcu] at h2
          exact h2 hv
        exact ihc v' r hs hv' hr
      · rfl

/-- If the children loop newly marks a self-looping state visited, it
reports a cycle - granted the same of each recursive call at this depth. -/
theorem cycleChildren_found_of_marks (adj : String → List String) (s₀ : String)
    (fuel : Nat)
    (ih : ∀ u v r, s₀ ∉ v → s₀ ∈ (hasCycleUtil adj fuel u v r).2 →
      (hasCycleUtil adj fuel u v r).1 = true) :
    ∀ cs v r, s₀ ∉ v → s₀ ∈ (cycleChildren adj fuel cs v r).2 →
      (cycleChildren adj fuel cs v r).1 = true := by
  intro cs
  induction cs with
  | nil =>
    intro v r hnv hin
    rw [cycleChildren] at hin
    exact absurd hin hnv
  | cons c cs ihc =>
    intro v r hnv hin
    rw [cycleChildren] at hin ⊢
    by_cases hc : c ∈ v
    · rw [if_pos hc] at hin ⊢
      by_cases hcr : c ∈ r
      · rw [if_pos hcr]
      · rw [if_neg hcr] at hin ⊢
        exact ihc v r hnv hin
    · rw [if_neg hc] at hin ⊢
      rcases hcu : hasCycleUtil adj fuel c v r with ⟨b, v'⟩
      rw [hcu] at hin
      cases b
      · by_cases hv' : s₀ ∈ v'
        · have hfound := ih c v r hnv (by rw [hcu]; exact hv')
          rw [hcu] at hfound
          exact absurd hfound (by simp)
        · exact ihc v' r hv' hin
      · rfl

/-- If the cycle DFS newly marks a self-looping state visited, it reports
a cycle: when it reaches that state, the state goes onto the recursion
stack and its self edge is a back edge. -/
theorem hasCycleUtil_found_of_marks (adj : String → List String) (s₀ : String)
    (hself : s₀ ∈ adj s₀) :
    ∀ fuel u v r, s₀ ∉ v → s₀ ∈ (hasCycleUtil adj fuel u v r).2 →
      (hasCycleUtil adj fuel u v r).1 = true := by
  intro fuel
  induction fuel with
  | zero =>
    intro u v r hnv hin
    rw [hasCycleUtil] at hin
    exact absurd hin hnv
  | succ fuel ih =>
    intro u v r hnv hin
    rw [hasCycleUtil] at hin ⊢
    by_cases hu : u = s₀
    · subst hu
      exact cycleChildren_self_hit adj fuel u (adj u) (u :: v) (u :: r)
        hself (List.mem_cons_self _ _) (List.mem_cons_self _ _)
    · have hnv' : s₀ ∉ u :: v := by
        intro hmem
        rcases List.mem_cons.mp hmem with h | h
        · exact hu h.symm
        · exact hnv h
      exact cycleChildren_found_of_marks adj s₀ fuel ih (adj u) (u :: v) (u :: r) hnv' hin

/-- The HasCycles loop reports a cycle whenever a state with a self edge
is in its worklist and not yet visited (with any positive depth budget). -/
theorem hasCyclesLoop_self_loop (adj : String → List String) (s₀ : String)
    (hself : s₀ ∈ adj s₀) (fuel : Nat) (hfuel : 1 ≤ fuel) :
    ∀ ss v, s₀ ∈ ss → s₀ ∉ v → hasCyclesLoop adj fuel ss v = true := by
  intro ss
  induction ss with
  | nil => intro v h _; exact absurd h (List.not_mem_nil _)
  | cons s ss ih =>
    intro v hss hnv
    rw [hasCyclesLoop]
    by_cases hsv : s ∈ v
    · rw [if_pos hsv]
      have hs : s₀ ∈ ss := by
        rcases List.mem_cons.mp hss with h | h
        · exact absurd (by rw [h]; exact hsv) hnv
        · exact h
      exact ih v hs hnv
    · rw [if_neg hsv]
      rcases hcu : hasCycleUtil adj fuel s v [] with ⟨b, v'⟩
      cases b
      · by_cases hs : s = s₀
        · subst hs
          obtain ⟨f, rfl⟩ : ∃ f, fuel = f + 1 := ⟨fuel - 1, by omega⟩
          have hhit := cycleChildren_self_hit adj f s (adj s) (s :: v) (s :: [])
            hself (List.mem_cons_self _ _) (List.mem_cons_self _ _)
          rw [hasCycleUtil] at hcu
          rw [hcu] at hhit
          exact absurd hhit (by simp)
        · have hs₀ : s₀ ∈ ss := by
            rcases List.mem_cons.mp hss with h | h
            · exact absurd h.symm hs
            · exact h
          by_cases hv' : s₀ ∈ v'
          · have h2 := hasCycleUtil_found_of_marks adj s₀ hself fuel s v [] hnv
              (by rw [hcu]; exact hv')
            rw [hcu] at h2
            exact absurd h2 (by simp)
          · exact ih v' hs₀ hv'
      · rfl

/-- The referential-integrity invariant the add-operations enforce: every
transition in the model mentions only declared state and event names. -/
def TransitionsDeclared (m : FSMModel) : Prop :=
  ∀ t ∈ m.Transitions, t.From ∈ m.GetStateNames ∧ t.To ∈ m.GetStateNames ∧
    t.Event ∈ m.GetEventNames

instance (m : FSMModel) : Decidable (TransitionsDeclared m) := by
  unfold TransitionsDeclared
  infer_instance

/-- A found state lookup means the name is one of the declared names. -/
theorem findState_mem_names {m : FSMModel} {n : String}
    (h : ¬ findState m n = none) : n ∈ m.GetStateNames := by
  rcases Option.ne_none_iff_exists'.mp h with ⟨s, hs⟩
  exact List.mem_map.mpr ⟨s, List.mem_of_find?_eq_some hs, by simpa using List.find?_some hs⟩

/-- A found event lookup means the name is one of the declared names. -/
theorem findEvent_mem_names {m : FSMModel} {n : String}
    (h : ¬ findEvent m n = none) : n ∈ m.GetEventNames := by
  rcases Option.ne_none_iff_exists'.mp h with ⟨e, he⟩
  exact List.mem_map.mpr ⟨e, List.mem_of_find?_eq_some he, by simpa using List.find?_some he⟩

/-- Embeds `NewFSMModel` (pkg/model/fsm.go lines 30-46). -/
def NewFSMModel (name initial : String) : Option FSMModel :=
  if name = "" then none
  else if initial = "" then none
  else some { Name := name, Initial := initial, States := [], Events := [], Transitions := [] }

/-- A fresh model has no transitions, so it trivially satisfies
referential integrity. -/
theorem transitionsDeclared_NewFSMModel (name initial : String) (m : FSMModel)
    (h : NewFSMModel name initial = some m) : TransitionsDeclared m := by
  unfold NewFSMModel at h
  split at h
  · exact absurd h (by simp)
  · split at h
    · exact absurd h (by simp)
    · cases h
      intro t ht
      exact absurd ht (List.not_mem_nil _)

/-- AddState preserves referential integrity: it never touches the
transition list and only enlarges the state registry. -/
theorem transitionsDeclared_AddState (m : FSMModel) (s : Option State)
    (h : TransitionsDeclared m) : TransitionsDeclared (AddState m s).1 := by
  cases s with
  | none => exact h
  | some st =>
    by_cases h1 : st.Name = ""
    · simpa [AddState, h1] using h
    · by_cases h2 : (findState m st.Name).isSome
      · simpa [AddState, h1, h2] using h
      · simp only [AddState, h1, h2, if_false, if_true, ite_false, ite_true]
        intro t ht
        obtain ⟨hf, hto, he⟩ := h t ht
        refine ⟨?_, ?_, he⟩ <;>
          · show _ ∈ (m.States ++ [st]).map State.Name
            rw [List.map_append]
            exact List.mem_append_left _ (by assumption)

/-- AddEvent preserves referential integrity. -/
theorem transitionsDeclared_AddEvent (m : FSMModel) (e : Option Event)
    (h : TransitionsDeclared m) : TransitionsDeclared (AddEvent m e).1 := by
  cases e with
  | none => exact h
  | some ev =>
    by_cases h1 : ev.Name = ""
    · simpa [AddEvent, h1] using h
    · by_cases h2 : (findEvent m ev.Name).isSome
      · simpa [AddEvent, h1, h2] using h
      · simp only [AddEvent, h1, h2, if_false, if_true, ite_false, ite_true]
        intro t ht
        obtain ⟨hf, hto, he⟩ := h t ht
        refine ⟨hf, hto, ?_⟩
        show _ ∈ (m.Events ++ [ev]).map Event.Name
        rw [List.map_append]
        exact List.mem_append_left _ he

/-- AddTransition preserves referential integrity: it appends a transition
only after the three existence checks have passed. -/
theorem transitionsDeclared_AddTransition (m : FSMModel) (t : Option Transition)
    (h : TransitionsDeclared m) : TransitionsDeclared (AddTransition m t).1 := by
  cases t with
  | none => exact h
  | some t =>
    by_cases h1 : (findState m t.From).isNone
    · simpa [AddTransition, h1] using h
    · by_cases h2 : (findState m t.To).isNone
      · simpa [AddTransition, h1, h2] using h
      · by_cases h3 : (findEvent m t.Event).isNone
        · simpa [AddTransition, h1, h2, h3] using h
        · simp only [AddTransition, h1, h2, h3, if_false, if_true, ite_false, ite_true]
          intro tr htr
          rcases List.mem_append.mp htr with h' | h'
          · exact h tr h'
          · cases List.mem_singleton.mp h'
            refine ⟨findState_mem_names ?_, findState_mem_names ?_, findEvent_mem_names ?_⟩
            · simpa [Option.isNone_iff_eq_none] using h1
            · simpa [Option.isNone_iff_eq_none] using h2
            · simpa [Option.isNone_iff_eq_none] using h3

/-- Claim C6: any model satisfying the referential integrity that the
add-operations enforce and containing a transition with From = To reports
HasCycles, even when the self-transitioning state is unreachable from the
initial state, because the detection loop iterates over every declared
state. -/
theorem HasCycles_of_self_transition (m : FSMModel) (t : Transition)
    (hdecl : TransitionsDeclared m) (ht : t ∈ m.Transitions) (hself : t.From = t.To) :
    (buildGraph m).HasCycles = true := by
  have hadj : t.From ∈ successors m.Transitions t.From :=
    List.mem_map.mpr ⟨t, List.mem_filter.mpr ⟨ht, by simp⟩, hself.symm⟩
  have hmem : t.From ∈ m.GetStateNames := (hdecl t ht).1
  show hasCyclesLoop (successors m.Transitions) (graphFuel m) m.GetStateNames [] = true
  exact hasCyclesLoop_self_loop _ t.From hadj (graphFuel m)
    (by unfold graphFuel; omega) m.GetStateNames [] hmem (List.not_mem_nil _)

/-- A model whose only transition is a self loop on "b", which is not
reachable from the initial state "a". -/
def selfLoopModel : FSMModel :=
  { Name := "M", Initial := "a",
    States := [{ Name := "a" }, { Name := "b" }], Events := [{ Name := "e" }],
    Transitions := [{ From := "b", To := "b", Event := "e" }] }

/-- Witness for `HasCycles_of_self_transition` at `selfLoopModel`, whose
self-looping state "b" is not reachable from the initial state "a". -/
theorem HasCycles_of_self_transition_witness :
    (TransitionsDeclared selfLoopModel ∧
     { From := "b", To := "b", Event := "e" } ∈ selfLoopModel.Transitions) ∧
    (buildGraph selfLoopModel).HasCycles = true :=
  ⟨⟨by decide, by decide⟩,
   HasCycles_of_self_transition selfLoopModel { From := "b", To := "b", Event := "e" }
     (by decide) (by decide) rfl⟩

/- Lemmas for the partition property of GetTransitionsFrom. -/

/-- A lookup miss means the name is not among the declared state names. -/
theorem findState_none_not_mem {m : FSMModel} {n : String}
    (h : findState m n = none) : n ∉ m.GetStateNames := by
  intro hmem
  rcases List.mem_map.mp hmem with ⟨s, hs, rfl⟩
  have h2 := List.find?_eq_none.mp h s hs
  simp at h2

/-- The uniqueness invariant the add-operations enforce on the state
registry: the declared state names are pairwise distinct. -/
def StateNamesNodup (m : FSMModel) : Prop :=
  m.GetStateNames.Nodup

instance (m : FSMModel) : Decidable (StateNamesNodup m) := by
  unfold StateNamesNodup
  infer_instance

/-- A fresh model has unique state names. -/
theorem stateNamesNodup_NewFSMModel (name initial : String) (m : FSMModel)
    (h : NewFSMModel name initial = some m) : StateNamesNodup m := by
  unfold NewFSMModel at h
  split at h
  · exact absurd h (by simp)
  · split at h
    · exact absurd h (by simp)
    · cases h
      exact List.nodup_nil

/-- AddState preserves uniqueness of state names: a duplicate name is
rejected before insertion. -/
theorem stateNamesNodup_AddState (m : FSMModel) (s : Option State)
    (h : StateNamesNodup m) : StateNamesNodup (AddState m s).1 := by
  cases s with
  | none => exact h
  | some st =>
    by_cases h1 : st.Name = ""
    · simpa [AddState, h1] using h
    · by_cases h2 : (findState m st.Name).isSome
      · simpa [AddState, h1, h2] using h
      · simp only [AddState, h1, h2, if_false, if_true, ite_false, ite_true]
        have hnot : st.Name ∉ m.GetStateNames :=
          findState_none_not_mem (by
            rcases hf : findState m st.Name with _ | s'
            · rfl
            · rw [hf] at h2; simp at h2)
        show ((m.States ++ [st]).map State.Name).Nodup
        rw [List.map_append, List.nodup_append]
        refine ⟨h, List.nodup_singleton _, ?_⟩
        intro a ha hb
        rcases List.mem_singleton.mp hb with rfl
        exact hnot ha

/-- AddEvent leaves the state registry untouched. -/
theorem stateNamesNodup_AddEvent (m : FSMModel) (e : Option Event)
    (h : StateNamesNodup m) : StateNamesNodup (AddEvent m e).1 := by
  cases e with
  | none => exact h
  | some ev =>
    by_cases h1 : ev.Name = ""
    · simpa [AddEvent, h1] using h
    · by_cases h2 : (findEvent m ev.Name).isSome
      · simpa [AddEvent, h1, h2] using h
      · simpa [AddEvent, h1, h2, StateNamesNodup, FSMModel.GetStateNames] using h

/-- AddTransition leaves the state registry untouched. -/
theorem stateNamesNodup_AddTransition (m : FSMModel) (t : Option Transition)
    (h : StateNamesNodup m) : StateNamesNodup (AddTransition m t).1 := by
  cases t with
  | none => exact h
  | some t =>
    by_cases h1 : (findState m t.From).isNone
    · simpa [AddTransition, h1] using h
    · by_cases h2 : (findState m t.To).isNone
      · simpa [AddTransition, h1, h2] using h
      · by_cases h3 : (findEvent m t.Event).isNone
        · simpa [AddTransition, h1, h2, h3] using h
        · simpa [AddTransition, h1, h2, h3, StateNamesNodup,
            FSMModel.GetStateNames] using h

/-- Filtering by a disjunction of two predicates that never hold together
splits the count. -/
theorem length_filter_or {α : Type} (p q : α → Bool) (l : List α)
    (hdisj : ∀ a ∈ l, p a = true → q a = false) :
    (l.filter fun a => p a || q a).length
      = (l.filter p).length + (l.filter q).length := by
  induction l with
  | nil => rfl
  | cons a l ih =>
    have ih' := ih fun x hx => hdisj x (List.mem_cons_of_mem _ hx)
    cases hp : p a with
    | true =>
      have hq := hdisj a (List.mem_cons_self _ _) hp
      simp [List.filter_cons, hp, hq, ih']
      omega
    | false =>
      cases hq : q a with
      | true =>
        simp [List.filter_cons, hp, hq, ih']
        omega
      | false => simp [List.filter_cons, hp, hq, ih']

/-- Summing, over a duplicate-free list of keys, the sizes of the groups
keyed by each entry counts exactly the elements whose key is listed. -/
theorem sum_filter_lengths {α : Type} (key : α → String) :
    ∀ names : List String, names.Nodup → ∀ ts : List α,
      (names.map fun s => (ts.filter fun t => key t == s).length).sum
        = (ts.filter fun t => names.contains (key t)).length := by
  intro names
  induction names with
  | nil =>
    intro _ ts
    simp [List.contains]
  | cons x xs ih =>
    intro hnd ts
    have hx : x ∉ xs := (List.nodup_cons.mp hnd).1
    have ihx := ih (List.nodup_cons.mp hnd).2 ts
    simp only [List.map_cons, List.sum_cons, ihx]
    have hpt : ∀ t ∈ ts, (x :: xs).contains (key t)
        = ((key t == x) || xs.contains (key t)) := fun t _ => List.contains_cons
    rw [List.filter_congr hpt]
    rw [length_filter_or (fun t => key t == x) (fun t => xs.contains (key t)) ts ?_]
    · intro a _ hpa
      have hkey : key a = x := by simpa using hpa
      cases hc : xs.contains (key a) with
      | false => exact hc
      | true =>
        have : key a ∈ xs := by simpa using hc
        rw [hkey] at this
        exact absurd this hx

/-- Claim C7: for a model with duplicate-free state names whose transitions
all reference declared states (as the add-operations guarantee), the sizes
of GetTransitionsFrom over all declared state names sum to the length of
the full transition list: the per-source lists partition the transitions. -/
theorem GetTransitionsFrom_partition (m : FSMModel)
    (hnd : StateNamesNodup m) (hdecl : TransitionsDeclared m) :
    (m.GetStateNames.map fun s => (m.GetTransitionsFrom s).length).sum
      = m.Transitions.length := by
  have h := sum_filter_lengths Transition.From m.GetStateNames hnd m.Transitions
  unfold FSMModel.GetTransitionsFrom
  rw [h]
  congr 1
  apply List.filter_eq_self.mpr
  intro t ht
  simpa using (hdecl t ht).1

/-- Witness for `GetTransitionsFrom_partition` at `selfLoopModel`. -/
theorem GetTransitionsFrom_partition_witness :
    (StateNamesNodup selfLoopModel ∧ TransitionsDeclared selfLoopModel) ∧
    (selfLoopModel.GetStateNames.map fun s =>
        (selfLoopModel.GetTransitionsFrom s).length).sum
      = selfLoopModel.Transitions.length :=
  ⟨⟨by decide, by decide⟩,
   GetTransitionsFrom_partition selfLoopModel (by decide) (by decide)⟩

end Gofsm
